import Mathlib

/-!
# SysPulse agent: sampling, delta computation and the paced delivery loop

A shallow embedding of `src/Engine/agent/main.cpp`.

Conventions of the embedding:

* `unsigned long long` values are natural numbers; every addition and
  subtraction of the source is reduced modulo `2 ^ 64` (`u64add`, `u64sub`).
* `double` values are the rational numbers that the binary64 format represents.
  Every conversion `static_cast<double>` and every division and multiplication
  rounds its exact result to the nearest such number, ties to the even
  significand (`toDouble`): 53 significant bits, the grid `2 ^ (-1074)` below the
  normal range.  Overflow to infinity is left out: the values the source rounds
  stay below `2 ^ 71` (`percentage_le_two_pow`).
* A file is `Option (List String)`: `none` when it cannot be opened, otherwise
  the sequence of lines that successive `std::getline` calls deliver.
* `std::istringstream` extraction is modelled by `IStream` with its `eofbit`
  and `failbit`, the whitespace-skipping sentry, and the two extractors the
  source uses (`std::string` and `unsigned long long`).
* A local variable that the source reads without having initialised it (the
  `value` of the memory scan when nothing is extracted into it) takes its
  content from a parameter `junk`, over which the theorems quantify.
-/

namespace SysPulse

/-! ## Machine arithmetic -/

/-- Number of values of an `unsigned long long`. -/
def U64 : Nat := 2 ^ 64

/-- Addition of two `unsigned long long` values. -/
def u64add (a b : Nat) : Nat := (a + b) % U64

/-- Subtraction of two `unsigned long long` values (wraps around below zero). -/
def u64sub (a b : Nat) : Nat := (a % U64 + (U64 - b % U64)) % U64

/-! ## Double precision -/

/-- Rounding of a rational number to the nearest integer, a tie going to the even one. -/
def roundHalfEven (q : ℚ) : ℤ :=
  let f := ⌊q⌋
  let r := q - f
  if r < 1 / 2 then f
  else if 1 / 2 < r then f + 1
  else if f % 2 = 0 then f else f + 1

/-- Exponent of the spacing of the binary64 numbers around `x`: 52 below the exponent of
`x` in the normal range, `-1074` for the subnormal numbers. -/
def ulpExp (x : ℚ) : ℤ := max (Int.log 2 |x| - 52) (-1074)

/-- The binary64 number nearest to `x`, ties to even: what a conversion to `double` or a
`double` operation with exact result `x` delivers. -/
def toDouble (x : ℚ) : ℚ := (roundHalfEven (x / 2 ^ ulpExp x) : ℚ) * 2 ^ ulpExp x

/-- The expression `(static_cast<double>(part) / static_cast<double>(whole)) * 100.0`
that `calculateCpuUsage` and `readRamUsage` both end with: two conversions, a division
and a multiplication, each rounded. -/
def percentage (part whole : Nat) : ℚ :=
  toDouble (toDouble (toDouble (part : ℚ) / toDouble (whole : ℚ)) * 100)

/-! ## CPU ticks -/

/-- The `struct CpuTicks` of the source. -/
structure CpuTicks where
  user : Nat
  nice : Nat
  system : Nat
  idle : Nat
  iowait : Nat
  irq : Nat
  softirq : Nat
  steal : Nat
deriving DecidableEq, Repr

namespace CpuTicks

/-- The member `getTotalIdle`: `idle + iowait`. -/
def getTotalIdle (t : CpuTicks) : Nat := u64add t.idle t.iowait

/-- The member `getTotalActive`: `user + nice + system + irq + softirq + steal`. -/
def getTotalActive (t : CpuTicks) : Nat :=
  u64add (u64add (u64add (u64add (u64add t.user t.nice) t.system) t.irq) t.softirq) t.steal

/-- The member `getTotal`: `getTotalIdle() + getTotalActive()`. -/
def getTotal (t : CpuTicks) : Nat := u64add t.getTotalIdle t.getTotalActive

/-- The sum of the eight counters as a natural number, without reduction. -/
def exactSum (t : CpuTicks) : Nat :=
  t.user + t.nice + t.system + t.idle + t.iowait + t.irq + t.softirq + t.steal

end CpuTicks

/-- The wrapped difference `currTotal - prevTotal` of `calculateCpuUsage`. -/
def totalDiff (prev curr : CpuTicks) : Nat := u64sub curr.getTotal prev.getTotal

/-- The wrapped difference `currIdle - prevIdle` of `calculateCpuUsage`. -/
def idleDiff (prev curr : CpuTicks) : Nat := u64sub curr.getTotalIdle prev.getTotalIdle

/-- The function `calculateCpuUsage` of the source. -/
def calculateCpuUsage (prev curr : CpuTicks) : ℚ :=
  let prevTotal := prev.getTotal
  let currTotal := curr.getTotal
  let prevIdle := prev.getTotalIdle
  let currIdle := curr.getTotalIdle
  let totalDiff := u64sub currTotal prevTotal
  let idleDiff := u64sub currIdle prevIdle
  if totalDiff = 0 then 0
  else percentage (u64sub totalDiff idleDiff) totalDiff

/-! ## Stream extraction -/

/-- State of a `std::istringstream`: the unread characters and two state bits. -/
structure IStream where
  rest : List Char
  eofbit : Bool
  failbit : Bool
deriving DecidableEq, Repr

/-- A stream freshly constructed on a line. -/
def IStream.ofString (s : String) : IStream := ⟨s.toList, false, false⟩

/-- The `isspace` of the "C" locale. -/
def isSpace (c : Char) : Bool :=
  c == ' ' || c == '\t' || c == '\n' || c == '\x0b' || c == '\x0c' || c == '\r'

/-- The sentry of a formatted input function with `skipws` set: it fails, setting
`failbit`, on a stream that is not good, and when skipping the leading whitespace
runs into the end of the stream. -/
def sentry (s : IStream) : Bool × IStream :=
  if s.eofbit || s.failbit then (false, { s with failbit := true })
  else
    match s.rest.dropWhile isSpace with
    | [] => (false, ⟨[], true, true⟩)
    | c :: cs => (true, ⟨c :: cs, false, false⟩)

/-- Extraction `iss >> str` into a `std::string` holding `old`: when the sentry
succeeds the string is erased and receives the characters up to the next
whitespace; otherwise it is left as it was. -/
def extractString (s : IStream) (old : List Char) : List Char × IStream :=
  match sentry s with
  | (false, s1) => (old, s1)
  | (true, s1) =>
    let tok := s1.rest.takeWhile (fun c => !isSpace c)
    let rest := s1.rest.dropWhile (fun c => !isSpace c)
    (tok, ⟨rest, rest.isEmpty, false⟩)

/-- Value of a sequence of decimal digits. -/
def digitsToNat (ds : List Char) : Nat :=
  ds.foldl (fun acc c => 10 * acc + (c.toNat - 48)) 0

/-- Extraction `iss >> v` into an `unsigned long long` holding `old`.  When the sentry
fails nothing is stored.  Otherwise an optional sign and the decimal digits that
follow are consumed; with no digit the value stored is `0` and `failbit` is set, a
value that does not fit stores the largest value and sets `failbit`, and a leading
minus sign negates the value modulo `2 ^ 64`. -/
def extractULL (s : IStream) (old : Nat) : Nat × IStream :=
  match sentry s with
  | (false, s1) => (old, s1)
  | (true, s1) =>
    let signed : Bool × List Char :=
      match s1.rest with
      | [] => (false, [])
      | c :: t => if c = '-' then (true, t) else if c = '+' then (false, t) else (false, c :: t)
    let ds := signed.2.takeWhile Char.isDigit
    let rest := signed.2.dropWhile Char.isDigit
    if ds.isEmpty then (0, ⟨rest, rest.isEmpty, true⟩)
    else
      let n := digitsToNat ds
      if U64 ≤ n then (U64 - 1, ⟨rest, rest.isEmpty, true⟩)
      else (if signed.1 then u64sub 0 n else n, ⟨rest, rest.isEmpty, false⟩)

/-! ## Reading the CPU ticks -/

/-- The function `readCpuTicks` of the source: `stat` is the content of `/proc/stat`,
`ticks` the object passed by reference; the result is the returned flag and the
object as the call leaves it. -/
def readCpuTicks (stat : Option (List String)) (ticks : CpuTicks) : Bool × CpuTicks :=
  match stat with
  | none => (false, ticks)
  | some [] => (false, ticks)
  | some (line :: _) =>
    let s0 := IStream.ofString line
    let l := extractString s0 []
    let f1 := extractULL l.2 ticks.user
    let f2 := extractULL f1.2 ticks.nice
    let f3 := extractULL f2.2 ticks.system
    let f4 := extractULL f3.2 ticks.idle
    let f5 := extractULL f4.2 ticks.iowait
    let f6 := extractULL f5.2 ticks.irq
    let f7 := extractULL f6.2 ticks.softirq
    let f8 := extractULL f7.2 ticks.steal
    let ticks1 : CpuTicks := ⟨f1.1, f2.1, f3.1, f4.1, f5.1, f6.1, f7.1, f8.1⟩
    if l.1 ≠ "cpu".toList then (false, ticks1) else (true, ticks1)

/-! ## Reading the memory usage -/

/-- The extraction `iss >> key >> value >> unit` at the head of the body of the scanning
loop, on one line: the key and the content of `value` after it.  `junk` is the content
the uninitialised `value` has when the loop body is entered; it is what the body goes on
with when the extraction stores nothing (no token follows the key).  The `unit`
extracted last is used nowhere and is left out. -/
def parseMemLine (junk : Nat) (line : String) : List Char × Nat :=
  let s0 := IStream.ofString line
  let k := extractString s0 []
  let v := extractULL k.2 (junk % U64)
  (k.1, v.1)

/-- The `if` / `else if` of the body of the scanning loop: the two variables `memTotal`
and `memAvailable` after a line with key and value `kv`. -/
def memStep (kv : List Char × Nat) (memTotal memAvailable : Nat) : Nat × Nat :=
  if kv.1 = "MemTotal:".toList then (kv.2, memAvailable)
  else if kv.1 = "MemAvailable:".toList then (memTotal, kv.2)
  else (memTotal, memAvailable)

/-- The scanning loop of `readRamUsage` started at line number `i` with the two
variables `memTotal` and `memAvailable`; the result is their content when the loop is
left, by the `break` or at the end of the file. -/
def scanMemInfo (junk : Nat → Nat) : Nat → List String → Nat → Nat → Nat × Nat
  | _, [], memTotal, memAvailable => (memTotal, memAvailable)
  | i, line :: rest, memTotal, memAvailable =>
    let m := memStep (parseMemLine (junk i) line) memTotal memAvailable
    if 0 < m.1 ∧ 0 < m.2 then m
    else scanMemInfo junk (i + 1) rest m.1 m.2

/-- The two values captured by `readRamUsage` on the lines of `/proc/meminfo`. -/
def captured (junk : Nat → Nat) (lines : List String) : Nat × Nat :=
  scanMemInfo junk 0 lines 0 0

/-- The function `readRamUsage` of the source; `-1` is the error value. -/
def readRamUsage (junk : Nat → Nat) (meminfo : Option (List String)) : ℚ :=
  match meminfo with
  | none => -1
  | some lines =>
    let memTotal := (captured junk lines).1
    let memAvailable := (captured junk lines).2
    if memTotal = 0 then -1
    else
      let memUsed := u64sub memTotal memAvailable
      percentage memUsed memTotal

/-! ## Delivery -/

/-- Outcomes of the socket calls made by one `sendTelemetry` call: the values returned
by `socket`, `inet_pton`, `connect` and `send`, and for `recv` either `none` (a negative
return value) or the bytes it delivered. -/
structure NetEnv where
  socketResult : Int
  ptonResult : Int
  connectResult : Int
  sendResult : Int
  recvResult : Option (List Char)

/-- The terminating character of a C string. -/
def NUL : Char := Char.ofNat 0

/-- The member `std::string::find`: the first position at which `pat` occurs in `s`,
`none` standing for `npos`. -/
def strFind : List Char → List Char → Option Nat
  | [], pat => if pat.isEmpty then some 0 else none
  | c :: cs, pat =>
    if pat.isPrefixOf (c :: cs) then some 0
    else (strFind cs pat).map (fun k => k + 1)

/-- The `std::string response(buffer)` of `sendTelemetry` after `recv` delivered
`received`: at most 1023 bytes are stored, a terminator is written behind them and the
string is built from the buffer as a C string, up to its first terminator. -/
def responseText (received : List Char) : List Char :=
  (received.take 1023 ++ [NUL]).takeWhile (fun c => c != NUL)

/-- The function `sendTelemetry` of the source.  The arguments `host`, `port`, `cpu` and
`ram` only determine the text of the request; the value returned depends on the outcomes
of the socket calls alone. -/
def sendTelemetry (net : NetEnv) : Bool :=
  if net.socketResult < 0 then false
  else if net.ptonResult ≤ 0 then false
  else if net.connectResult < 0 then false
  else if net.sendResult < 0 then false
  else
    match net.recvResult with
    | none => false
    | some received =>
      if strFind (responseText received) "200".toList ≠ none then true else false

/-! ## The monitoring loop -/

/-- The variables of `main` that live across iterations of the monitoring loop. -/
structure LoopState where
  prevTicks : CpuTicks
  currTicks : CpuTicks
deriving DecidableEq, Repr

/-- What one iteration of the monitoring loop meets: the two files, the content of the
uninitialised variable of the memory scan, the outcomes of the socket calls, and the
milliseconds between `startTime` and the moment the iteration starts to pace. -/
structure CycleInput where
  stat : Option (List String)
  meminfo : Option (List String)
  junk : Nat → Nat
  net : NetEnv
  elapsedMs : Int

/-- What one iteration of the monitoring loop does: the state it leaves, the arguments
`cpu` and `ram` of the `sendTelemetry` call when there is one, the value that call
returned, and the milliseconds passed to `sleep_for`. -/
structure CycleOutcome where
  state : LoopState
  sent : Option (ℚ × ℚ)
  delivered : Bool
  sleptMs : Int

/-- The constant `intervalMs` of `main`. -/
def intervalMs : Int := 1000

/-- One iteration of the `while (g_running)` loop of `main`. -/
def loopIteration (st : LoopState) (inp : CycleInput) : CycleOutcome :=
  let r := readCpuTicks inp.stat st.currTicks
  if !r.1 then
    ⟨⟨st.prevTicks, r.2⟩, none, false, intervalMs⟩
  else
    let cpuUsage := calculateCpuUsage st.prevTicks r.2
    let st1 : LoopState := ⟨r.2, r.2⟩
    let ramUsage := readRamUsage inp.junk inp.meminfo
    if ramUsage < 0 then
      ⟨st1, none, false, intervalMs⟩
    else
      let ok := sendTelemetry inp.net
      let sleepTime := intervalMs - inp.elapsedMs
      ⟨st1, some (cpuUsage, ramUsage), ok, if 0 < sleepTime then sleepTime else 0⟩

/-! ## Concrete inputs -/

/-- The baseline snapshot of the worked example. -/
def exampleBaseline : CpuTicks := ⟨100, 0, 50, 850, 0, 0, 0, 0⟩

/-- The current snapshot of the worked example. -/
def exampleCurrent : CpuTicks := ⟨200, 0, 100, 1700, 0, 0, 0, 0⟩

/-- A pair of snapshots in which the active counter goes down while the idle counter
goes up: the total grows by 10, the idle total by 20. -/
def wrapPrev : CpuTicks := ⟨10, 0, 0, 0, 0, 0, 0, 0⟩

/-- The second snapshot of the wrapping pair. -/
def wrapCurr : CpuTicks := ⟨0, 0, 0, 20, 0, 0, 0, 0⟩

/-- A snapshot with every counter zero. -/
def zeroTicks : CpuTicks := ⟨0, 0, 0, 0, 0, 0, 0, 0⟩

/-- A snapshot with 7 active and 93 idle ticks. -/
def sevenTicks : CpuTicks := ⟨7, 0, 0, 93, 0, 0, 0, 0⟩

/-- A memory-info content with 7 of 100 units in use. -/
def sevenMeminfo : List String := ["MemTotal: 100 kB", "MemAvailable: 93 kB"]

/-- A memory-info content with a total of `2 ^ 60` units, none available. -/
def fullMeminfo : List String :=
  ["MemTotal: 1152921504606846976 kB", "MemAvailable: 0 kB"]

/-- A memory-info content with a total of `2 ^ 60` units, one available. -/
def tightMeminfo : List String :=
  ["MemTotal: 1152921504606846976 kB", "MemAvailable: 1 kB"]

/-- The memory-info content of the worked example. -/
def exampleMeminfo : List String := ["MemTotal: 8000000 kB", "MemAvailable: 2000000 kB"]

/-- A memory-info content in which the available memory is reported as zero and a later
line is keyed `MemAvailable` again. -/
def repeatedMeminfo : List String :=
  ["MemTotal: 100 kB", "MemAvailable: 0 kB", "MemAvailable: 50 kB"]

/-- Content of the uninitialised variable used for the concrete inputs. -/
def zeroJunk : Nat → Nat := fun _ => 0

/-- The first whitespace-separated token of a line, empty when the line has none. -/
def firstToken (line : String) : List Char :=
  (line.toList.dropWhile isSpace).takeWhile (fun c => !isSpace c)

/-- A first line of `/proc/stat` with the label and three counters only. -/
def shortStat : List String := ["cpu 1 2 3"]

/-- The content of the object handed to `readCpuTicks` for the concrete inputs. -/
def staleTicks : CpuTicks := ⟨9, 9, 9, 9, 9, 9, 9, 9⟩

/-- A response of four bytes: a terminator followed by `200`. -/
def nulResponse : List Char := NUL :: "200".toList

/-- The response of the worked example. -/
def errorResponse : List Char := "HTTP/1.1 500 Internal Server Error".toList

/-- Socket calls that all succeed, `recv` delivering `received`. -/
def netDelivering (received : List Char) : NetEnv := ⟨3, 1, 0, 1, some received⟩

/-- An iteration whose CPU read fails (the file cannot be opened) 5 ms after its start. -/
def failedCpuCycle : CycleInput :=
  ⟨none, some exampleMeminfo, zeroJunk, netDelivering errorResponse, 5⟩

/-- An iteration in which both reads succeed and 5 ms have passed at the pacing step. -/
def goodCycle : CycleInput :=
  ⟨some ["cpu 200 0 100 1700 0 0 0 0 0 0"], some exampleMeminfo, zeroJunk,
    netDelivering errorResponse, 5⟩

/-- The loop state before the iterations of the concrete inputs. -/
def startState : LoopState := ⟨exampleBaseline, exampleBaseline⟩

/-! ## Arithmetic facts -/

theorem u64sub_lt (a b : Nat) : u64sub a b < U64 := by
  unfold u64sub
  exact Nat.mod_lt _ (by unfold U64; norm_num)

theorem u64sub_of_le {a b : Nat} (hb : b ≤ a) (ha : a < U64) : u64sub a b = a - b := by
  unfold u64sub U64 at *
  omega

theorem u64sub_le_iff {a b : Nat} (ha : a < U64) (hb : b < U64) :
    u64sub a b ≤ a ↔ b ≤ a := by
  unfold u64sub U64 at *
  omega

theorem u64sub_eq_zero_iff {a b : Nat} (ha : a < U64) (hb : b < U64) :
    u64sub a b = 0 ↔ a = b := by
  unfold u64sub U64 at *
  omega

theorem getTotalIdle_lt (t : CpuTicks) : t.getTotalIdle < U64 := by
  unfold CpuTicks.getTotalIdle u64add
  exact Nat.mod_lt _ (by unfold U64; norm_num)

theorem getTotal_lt (t : CpuTicks) : t.getTotal < U64 := by
  unfold CpuTicks.getTotal u64add
  exact Nat.mod_lt _ (by unfold U64; norm_num)

/-- Without overflow the three derived values are the plain sums. -/
theorem sums_of_exactSum_lt (t : CpuTicks) (h : t.exactSum < U64) :
    t.getTotalIdle = t.idle + t.iowait ∧
    t.getTotalActive = t.user + t.nice + t.system + t.irq + t.softirq + t.steal ∧
    t.getTotal = t.exactSum := by
  unfold CpuTicks.getTotal CpuTicks.getTotalIdle CpuTicks.getTotalActive u64add
  unfold CpuTicks.exactSum U64 at *
  omega

/-! ## Facts on rounding -/

theorem floor_le_roundHalfEven (q : ℚ) : ⌊q⌋ ≤ roundHalfEven q := by
  unfold roundHalfEven
  dsimp only
  split_ifs <;> omega

theorem roundHalfEven_le_floor_succ (q : ℚ) : roundHalfEven q ≤ ⌊q⌋ + 1 := by
  unfold roundHalfEven
  dsimp only
  split_ifs <;> omega

theorem roundHalfEven_intCast (z : ℤ) : roundHalfEven (z : ℚ) = z := by
  unfold roundHalfEven
  simp

theorem roundHalfEven_mono {p q : ℚ} (h : p ≤ q) : roundHalfEven p ≤ roundHalfEven q := by
  have hf : ⌊p⌋ ≤ ⌊q⌋ := Int.floor_mono h
  rcases hf.lt_or_eq with hlt | heq
  · calc roundHalfEven p ≤ ⌊p⌋ + 1 := roundHalfEven_le_floor_succ p
      _ ≤ ⌊q⌋ := hlt
      _ ≤ roundHalfEven q := floor_le_roundHalfEven q
  · unfold roundHalfEven
    dsimp only
    rw [heq]
    have hr : p - (⌊q⌋ : ℚ) ≤ q - (⌊q⌋ : ℚ) := by linarith
    split_ifs <;> first | omega | (exfalso; linarith)

theorem abs_roundHalfEven_sub_le (q : ℚ) : |(roundHalfEven q : ℚ) - q| ≤ 1 / 2 := by
  have h1 := Int.floor_le q
  have h2 := Int.lt_floor_add_one q
  unfold roundHalfEven
  dsimp only
  rw [abs_le]
  split_ifs <;> push_cast <;> constructor <;> linarith

theorem roundHalfEven_eq_of_abs_lt {q : ℚ} {m : ℤ} (h : |q - (m : ℚ)| < 1 / 2) :
    roundHalfEven q = m := by
  rw [abs_lt] at h
  have f1 : m - 1 ≤ ⌊q⌋ := Int.le_floor.mpr (by push_cast; linarith)
  have f2 : ⌊q⌋ < m + 1 := Int.floor_lt.mpr (by push_cast; linarith)
  have h1 := Int.floor_le q
  have h2 := Int.lt_floor_add_one q
  unfold roundHalfEven
  dsimp only
  rcases (show ⌊q⌋ = m - 1 ∨ ⌊q⌋ = m by omega) with e | e
  · rw [e] at h1 h2 ⊢
    push_cast at h1 h2 ⊢
    split_ifs <;> first | omega | (exfalso; linarith)
  · rw [e] at h1 h2 ⊢
    split_ifs <;> first | omega | (exfalso; linarith)

theorem two_zpow_pos (e : ℤ) : (0 : ℚ) < 2 ^ e := zpow_pos (by norm_num) e

theorem log_spec {x : ℚ} (hx : 0 < x) :
    (2 : ℚ) ^ Int.log 2 x ≤ x ∧ x < (2 : ℚ) ^ (Int.log 2 x + 1) := by
  have h1 := Int.zpow_log_le_self (b := 2) (by norm_num) hx
  have h2 := Int.lt_zpow_succ_log_self (b := 2) (by norm_num) x
  exact ⟨by simpa using h1, by simpa using h2⟩

theorem log_eq_of {x : ℚ} {k : ℤ} (h1 : (2 : ℚ) ^ k ≤ x) (h2 : x < (2 : ℚ) ^ (k + 1)) :
    Int.log 2 x = k := by
  have hx : 0 < x := lt_of_lt_of_le (two_zpow_pos k) h1
  have a := (Int.zpow_le_iff_le_log (b := 2) (by norm_num) hx (x := k)).mp (by simpa using h1)
  have b := (Int.lt_zpow_iff_log_lt (b := 2) (by norm_num) hx (x := k + 1)).mp (by simpa using h2)
  omega

theorem toDouble_zero : toDouble 0 = 0 := by
  unfold toDouble
  simp [roundHalfEven]

theorem toDouble_nonneg {x : ℚ} (hx : 0 ≤ x) : 0 ≤ toDouble x := by
  unfold toDouble
  have hp := two_zpow_pos (ulpExp x)
  have hq : 0 ≤ x / 2 ^ ulpExp x := div_nonneg hx hp.le
  have h0 : (0 : ℤ) ≤ roundHalfEven (x / 2 ^ ulpExp x) :=
    le_trans (Int.floor_nonneg.mpr hq) (floor_le_roundHalfEven _)
  exact mul_nonneg (by exact_mod_cast h0) hp.le

theorem ulpExp_mono {x y : ℚ} (hx : 0 < x) (h : x ≤ y) : ulpExp x ≤ ulpExp y := by
  unfold ulpExp
  rw [abs_of_pos hx, abs_of_pos (lt_of_lt_of_le hx h)]
  have := Int.log_mono_right (b := 2) hx h
  exact max_le_max (by omega) le_rfl

theorem toDouble_mono_pos {x y : ℚ} (hx : 0 < x) (h : x ≤ y) : toDouble x ≤ toDouble y := by
  have hy : 0 < y := lt_of_lt_of_le hx h
  have he := ulpExp_mono hx h
  rcases he.lt_or_eq with hlt | heq
  · -- the exponents differ: a power of two separates the two values
    have hxs := log_spec hx
    have hys := log_spec hy
    have ex1 : Int.log 2 x - 52 ≤ ulpExp x := by
      unfold ulpExp; rw [abs_of_pos hx]; exact le_max_left _ _
    have ex2 : -1074 ≤ ulpExp x := by
      unfold ulpExp; exact le_max_right _ _
    have ey : ulpExp y = Int.log 2 y - 52 := by
      have : ulpExp y = max (Int.log 2 y - 52) (-1074) := by
        unfold ulpExp; rw [abs_of_pos hy]
      rw [this] at hlt ⊢
      rcases max_cases (Int.log 2 y - 52) (-1074) with ⟨h1, _⟩ | ⟨h1, _⟩
      · exact h1
      · rw [h1] at hlt; omega
    have hL : Int.log 2 x + 1 ≤ Int.log 2 y := by omega
    have hpx := two_zpow_pos (ulpExp x)
    have hpy := two_zpow_pos (ulpExp y)
    -- toDouble x ≤ 2 ^ log y
    have hd : 0 ≤ Int.log 2 y - ulpExp x := by omega
    have hxle : x ≤ (2 : ℚ) ^ Int.log 2 y :=
      le_trans hxs.2.le (zpow_le_zpow_right₀ (by norm_num) hL)
    have hsplit : (2 : ℚ) ^ Int.log 2 y
        = (((2 : ℤ) ^ (Int.log 2 y - ulpExp x).toNat : ℤ) : ℚ) * 2 ^ ulpExp x := by
      push_cast
      rw [← zpow_natCast, Int.toNat_of_nonneg hd, ← zpow_add₀ (by norm_num)]
      congr 1
      omega
    have h1 : toDouble x ≤ (2 : ℚ) ^ Int.log 2 y := by
      unfold toDouble
      rw [hsplit]
      apply mul_le_mul_of_nonneg_right _ hpx.le
      have : x / 2 ^ ulpExp x ≤ (((2 : ℤ) ^ (Int.log 2 y - ulpExp x).toNat : ℤ) : ℚ) := by
        rw [div_le_iff₀ hpx, ← hsplit]
        exact hxle
      have := roundHalfEven_mono this
      rw [roundHalfEven_intCast] at this
      exact_mod_cast this
    have hsplit2 : (2 : ℚ) ^ Int.log 2 y = (((2 : ℤ) ^ 52 : ℤ) : ℚ) * 2 ^ ulpExp y := by
      have c : (((2 : ℤ) ^ 52 : ℤ) : ℚ) = (2 : ℚ) ^ (52 : ℤ) := by norm_num
      rw [c, ey, ← zpow_add₀ (by norm_num)]
      congr 1
      omega
    have h2 : (2 : ℚ) ^ Int.log 2 y ≤ toDouble y := by
      unfold toDouble
      rw [hsplit2]
      apply mul_le_mul_of_nonneg_right _ hpy.le
      have : (((2 : ℤ) ^ 52 : ℤ) : ℚ) ≤ y / 2 ^ ulpExp y := by
        rw [le_div_iff₀ hpy, ← hsplit2]
        exact hys.1
      have := roundHalfEven_mono this
      rw [roundHalfEven_intCast] at this
      exact_mod_cast this
    exact le_trans h1 h2
  · unfold toDouble
    rw [heq]
    have hpy := two_zpow_pos (ulpExp y)
    apply mul_le_mul_of_nonneg_right _ hpy.le
    have : x / 2 ^ ulpExp y ≤ y / 2 ^ ulpExp y := div_le_div_of_nonneg_right h hpy.le
    exact_mod_cast roundHalfEven_mono this

theorem toDouble_mono {x y : ℚ} (hx : 0 ≤ x) (h : x ≤ y) : toDouble x ≤ toDouble y := by
  rcases hx.lt_or_eq with hpos | h0
  · exact toDouble_mono_pos hpos h
  · rw [← h0, toDouble_zero]
    exact toDouble_nonneg (le_trans hx h)

theorem toDouble_eval {x : ℚ} (k e m : ℤ) (h1 : (2 : ℚ) ^ k ≤ x) (h2 : x < (2 : ℚ) ^ (k + 1))
    (he : e = max (k - 52) (-1074)) (hm : |x / 2 ^ e - (m : ℚ)| < 1 / 2) :
    toDouble x = (m : ℚ) * 2 ^ e := by
  have hx : 0 < x := lt_of_lt_of_le (two_zpow_pos k) h1
  have hu : ulpExp x = e := by
    unfold ulpExp
    rw [abs_of_pos hx, log_eq_of h1 h2, he]
  unfold toDouble
  rw [hu, roundHalfEven_eq_of_abs_lt hm]

/-- In the normal range a rounding moves a value by at most the fraction `2 ^ (-53)` of it. -/
theorem toDouble_rel_err {x : ℚ} (hx : 1 / 2 ^ 1022 ≤ x) :
    |toDouble x - x| ≤ x / 2 ^ 53 := by
  have hpos : 0 < x := lt_of_lt_of_le (by positivity) hx
  have hs := log_spec hpos
  have hL : -1022 ≤ Int.log 2 x := by
    apply (Int.zpow_le_iff_le_log (b := 2) (by norm_num) hpos (x := -1022)).mp
    have c : ((2 : ℕ) : ℚ) ^ (-1022 : ℤ) = 1 / 2 ^ 1022 := by
      rw [zpow_neg, one_div]
      norm_cast
    rw [c]
    exact hx
  have hu : ulpExp x = Int.log 2 x - 52 := by
    unfold ulpExp
    rw [abs_of_pos hpos]
    exact max_eq_left (by omega)
  have hp := two_zpow_pos (ulpExp x)
  have hr := abs_roundHalfEven_sub_le (x / 2 ^ ulpExp x)
  have e1 : toDouble x - x
      = ((roundHalfEven (x / 2 ^ ulpExp x) : ℚ) - x / 2 ^ ulpExp x) * 2 ^ ulpExp x := by
    unfold toDouble
    field_simp
  have e2 : (2 : ℚ) ^ ulpExp x = 2 ^ Int.log 2 x / 2 ^ 52 := by
    rw [hu, zpow_sub₀ (by norm_num)]
    norm_cast
  rw [e1, abs_mul, abs_of_pos hp]
  calc |(roundHalfEven (x / 2 ^ ulpExp x) : ℚ) - x / 2 ^ ulpExp x| * 2 ^ ulpExp x
      ≤ 1 / 2 * 2 ^ ulpExp x := mul_le_mul_of_nonneg_right hr hp.le
    _ = 2 ^ Int.log 2 x / 2 ^ 53 := by rw [e2]; ring
    _ ≤ x / 2 ^ 53 := div_le_div_of_nonneg_right hs.1 (by positivity)

theorem toDouble_bounds {x : ℚ} (hx : 1 / 2 ^ 1022 ≤ x) :
    x * (1 - 1 / 2 ^ 53) ≤ toDouble x ∧ toDouble x ≤ x * (1 + 1 / 2 ^ 53) := by
  have h := abs_le.mp (toDouble_rel_err hx)
  constructor
  · linarith [h.1]
  · linarith [h.2]

/-- Four roundings of relative error at most `u` each, applied to a quotient and to its
product by 100, move the result by at most the fraction `8 * u` of the exact value. -/
theorem rel_chain {u n t a b q r : ℚ} (hu0 : 0 ≤ u) (hu : u ≤ 1 / 1000)
    (hn : 0 < n) (ht : 0 < t)
    (a1 : n * (1 - u) ≤ a) (a2 : a ≤ n * (1 + u))
    (b1 : t * (1 - u) ≤ b) (b2 : b ≤ t * (1 + u))
    (q1 : a / b * (1 - u) ≤ q) (q2 : q ≤ a / b * (1 + u))
    (r1 : q * 100 * (1 - u) ≤ r) (r2 : r ≤ q * 100 * (1 + u)) :
    |r - 100 * n / t| ≤ 100 * n / t * (8 * u) := by
  have b0 : 0 < b := lt_of_lt_of_le (mul_pos ht (by linarith)) b1
  have a0 : 0 < a := lt_of_lt_of_le (mul_pos hn (by linarith)) a1
  have hnE : n / t * t = n := by field_simp
  have E0 : 0 < n / t := div_pos hn ht
  set E := n / t with hE
  have ab0 : 0 < a / b := div_pos a0 b0
  have ab_up : a / b ≤ E * (1 + 3 * u) := by
    rw [div_le_iff₀ b0]
    have c1 : 1 + u ≤ (1 + 3 * u) * (1 - u) := by nlinarith
    calc a ≤ n * (1 + u) := a2
      _ ≤ n * ((1 + 3 * u) * (1 - u)) := mul_le_mul_of_nonneg_left c1 hn.le
      _ = E * (1 + 3 * u) * (t * (1 - u)) := by rw [← hnE]; ring
      _ ≤ E * (1 + 3 * u) * b := mul_le_mul_of_nonneg_left b1 (by positivity)
  have ab_low : E * (1 - 3 * u) ≤ a / b := by
    rw [le_div_iff₀ b0]
    have c1 : (1 - 3 * u) * (1 + u) ≤ 1 - u := by nlinarith
    have c2 : 0 ≤ 1 - 3 * u := by linarith
    calc E * (1 - 3 * u) * b ≤ E * (1 - 3 * u) * (t * (1 + u)) :=
          mul_le_mul_of_nonneg_left b2 (mul_nonneg E0.le c2)
      _ = n * ((1 - 3 * u) * (1 + u)) := by rw [← hnE]; ring
      _ ≤ n * (1 - u) := mul_le_mul_of_nonneg_left c1 hn.le
      _ ≤ a := a1
  have q0 : 0 < q := lt_of_lt_of_le (mul_pos ab0 (by linarith)) q1
  have up : r ≤ E * 100 * (1 + 8 * u) := by
    have k : (1 + 3 * u) * (1 + u) * (1 + u) ≤ 1 + 8 * u := by nlinarith [mul_nonneg hu0 hu0]
    have u1 : (0 : ℚ) ≤ 1 + u := by linarith
    calc r ≤ q * 100 * (1 + u) := r2
      _ ≤ a / b * (1 + u) * 100 * (1 + u) := by
          apply mul_le_mul_of_nonneg_right _ u1
          exact mul_le_mul_of_nonneg_right q2 (by norm_num)
      _ = a / b * ((1 + u) * 100 * (1 + u)) := by ring
      _ ≤ E * (1 + 3 * u) * ((1 + u) * 100 * (1 + u)) :=
          mul_le_mul_of_nonneg_right ab_up (by positivity)
      _ = E * 100 * ((1 + 3 * u) * (1 + u) * (1 + u)) := by ring
      _ ≤ E * 100 * (1 + 8 * u) := mul_le_mul_of_nonneg_left k (by positivity)
  have low : E * 100 * (1 - 8 * u) ≤ r := by
    have k : 1 - 8 * u ≤ (1 - 3 * u) * (1 - u) * (1 - u) := by
      nlinarith [mul_nonneg hu0 hu0, mul_nonneg (mul_nonneg hu0 hu0) hu0]
    have u1 : (0 : ℚ) ≤ 1 - u := by linarith
    calc E * 100 * (1 - 8 * u)
        ≤ E * 100 * ((1 - 3 * u) * (1 - u) * (1 - u)) :=
          mul_le_mul_of_nonneg_left k (by positivity)
      _ = E * (1 - 3 * u) * ((1 - u) * 100 * (1 - u)) := by ring
      _ ≤ a / b * ((1 - u) * 100 * (1 - u)) :=
          mul_le_mul_of_nonneg_right ab_low (by positivity)
      _ = a / b * (1 - u) * 100 * (1 - u) := by ring
      _ ≤ q * 100 * (1 - u) := by
          apply mul_le_mul_of_nonneg_right _ u1
          exact mul_le_mul_of_nonneg_right q1 (by norm_num)
      _ ≤ r := r1
  have hEE : 100 * n / t = E * 100 := by rw [hE]; ring
  rw [hEE, abs_le]
  constructor
  · linarith
  · linarith

/-- The rounded percentage differs from the exact one by at most the fraction `2 ^ (-50)`
of it. -/
theorem percentage_rel_err (part whole : Nat) (hw : 0 < whole) (hw2 : whole < U64) :
    |percentage part whole - 100 * (part : ℚ) / (whole : ℚ)|
      ≤ (100 * (part : ℚ) / (whole : ℚ)) / 2 ^ 50 := by
  rcases Nat.eq_zero_or_pos part with h0 | hp
  · subst h0
    unfold percentage
    simp [toDouble_zero]
  have hN : (1 : ℚ) ≤ (part : ℚ) := by exact_mod_cast hp
  have hT : (1 : ℚ) ≤ (whole : ℚ) := by exact_mod_cast hw
  have hT2 : (whole : ℚ) ≤ 2 ^ 64 := by
    unfold U64 at hw2
    exact_mod_cast hw2.le
  have small : (1 : ℚ) / 2 ^ 1022 ≤ 1 / 2 ^ 70 :=
    one_div_le_one_div_of_le (by positivity) (pow_le_pow_right₀ (by norm_num) (by norm_num))
  have hu0 : (0 : ℚ) ≤ 1 / 2 ^ 53 := by positivity
  have hu : (1 : ℚ) / 2 ^ 53 ≤ 1 / 1000 :=
    one_div_le_one_div_of_le (by norm_num) (by norm_num)
  obtain ⟨a1, a2⟩ := toDouble_bounds (x := (part : ℚ)) (le_trans small (by linarith))
  obtain ⟨b1, b2⟩ := toDouble_bounds (x := (whole : ℚ)) (le_trans small (by linarith))
  have apos : (1 : ℚ) / 2 ≤ toDouble (part : ℚ) := by nlinarith
  have bup : toDouble (whole : ℚ) ≤ 2 ^ 65 := by nlinarith
  have b0 : 0 < toDouble (whole : ℚ) := by nlinarith
  have q0 : (1 : ℚ) / 2 ^ 66 ≤ toDouble (part : ℚ) / toDouble (whole : ℚ) := by
    rw [le_div_iff₀ b0]
    nlinarith
  obtain ⟨q1, q2⟩ := toDouble_bounds (x := toDouble (part : ℚ) / toDouble (whole : ℚ))
    (le_trans small (le_trans (by norm_num) q0))
  have qlow : (1 : ℚ) / 2 ^ 67
      ≤ toDouble (toDouble (part : ℚ) / toDouble (whole : ℚ)) := by nlinarith
  obtain ⟨r1, r2⟩ := toDouble_bounds
    (x := toDouble (toDouble (part : ℚ) / toDouble (whole : ℚ)) * 100)
    (le_trans small (by nlinarith))
  have h := rel_chain hu0 hu (by linarith) (by linarith) a1 a2 b1 b2 q1 q2 r1 r2
  have e8 : (8 : ℚ) * (1 / 2 ^ 53) = 1 / 2 ^ 50 := by norm_num
  rw [e8] at h
  unfold percentage
  rw [div_eq_mul_one_div (100 * (part : ℚ) / (whole : ℚ))]
  exact h

theorem toDouble_one : toDouble 1 = 1 := by
  rw [toDouble_eval 0 (-52) (2 ^ 52) (by norm_num) (by norm_num) (by norm_num) (by norm_num)]
  norm_num

theorem toDouble_hundred : toDouble 100 = 100 := by
  rw [toDouble_eval 6 (-46) (100 * 2 ^ 46) (by norm_num) (by norm_num) (by norm_num)
    (by norm_num)]
  norm_num

theorem toDouble_two_pow_64 : toDouble (2 ^ 64) = 2 ^ 64 := by
  rw [toDouble_eval 64 12 (2 ^ 52) (by norm_num) (by norm_num) (by norm_num) (by norm_num)]
  norm_num

theorem toDouble_two_pow_71 : toDouble (2 ^ 71) = 2 ^ 71 := by
  rw [toDouble_eval 71 19 (2 ^ 52) (by norm_num) (by norm_num) (by norm_num) (by norm_num)]
  norm_num

/-! ## Facts on `percentage` -/

theorem percentage_eval (part whole : Nat) (a b q r : ℚ) (ha : toDouble (part : ℚ) = a)
    (hb : toDouble (whole : ℚ) = b) (hq : toDouble (a / b) = q)
    (hr : toDouble (q * 100) = r) : percentage part whole = r := by
  unfold percentage
  rw [ha, hb, hq, hr]

theorem percentage_zero (whole : Nat) : percentage 0 whole = 0 := by
  unfold percentage
  simp [toDouble_zero]

theorem percentage_nonneg (part whole : Nat) : 0 ≤ percentage part whole := by
  unfold percentage
  apply toDouble_nonneg
  apply mul_nonneg _ (by norm_num)
  apply toDouble_nonneg
  exact div_nonneg (toDouble_nonneg (Nat.cast_nonneg _)) (toDouble_nonneg (Nat.cast_nonneg _))

theorem one_le_toDouble_natCast {n : Nat} (h : 0 < n) : 1 ≤ toDouble (n : ℚ) := by
  have h1 : (1 : ℚ) ≤ (n : ℚ) := by exact_mod_cast h
  have := toDouble_mono (by norm_num) h1
  rwa [toDouble_one] at this

/-- The rounded percentage of a part that does not exceed the whole is at most 100. -/
theorem percentage_le_hundred {part whole : Nat} (hw : 0 < whole) (h : part ≤ whole) :
    percentage part whole ≤ 100 := by
  have hb := one_le_toDouble_natCast hw
  have b0 : 0 < toDouble (whole : ℚ) := by linarith
  have hab : toDouble (part : ℚ) ≤ toDouble (whole : ℚ) :=
    toDouble_mono (Nat.cast_nonneg _) (by exact_mod_cast h)
  have a0 : 0 ≤ toDouble (part : ℚ) := toDouble_nonneg (Nat.cast_nonneg _)
  have hq : toDouble (toDouble (part : ℚ) / toDouble (whole : ℚ)) ≤ 1 := by
    have := toDouble_mono (div_nonneg a0 b0.le) ((div_le_one b0).mpr hab)
    rwa [toDouble_one] at this
  have q0 : 0 ≤ toDouble (toDouble (part : ℚ) / toDouble (whole : ℚ)) :=
    toDouble_nonneg (div_nonneg a0 b0.le)
  unfold percentage
  have := toDouble_mono (mul_nonneg q0 (by norm_num))
    (show toDouble (toDouble (part : ℚ) / toDouble (whole : ℚ)) * 100 ≤ 100 by linarith)
  rwa [toDouble_hundred] at this

/-- For a fixed whole the rounded percentage does not decrease when the part grows. -/
theorem percentage_mono {p1 p2 : Nat} (whole : Nat) (h : p1 ≤ p2) :
    percentage p1 whole ≤ percentage p2 whole := by
  have b0 : 0 ≤ toDouble (whole : ℚ) := toDouble_nonneg (Nat.cast_nonneg _)
  have a0 : 0 ≤ toDouble (p1 : ℚ) := toDouble_nonneg (Nat.cast_nonneg _)
  have hab : toDouble (p1 : ℚ) ≤ toDouble (p2 : ℚ) :=
    toDouble_mono (Nat.cast_nonneg _) (by exact_mod_cast h)
  have hq := toDouble_mono (div_nonneg a0 b0) (div_le_div_of_nonneg_right hab b0)
  have q0 : 0 ≤ toDouble (toDouble (p1 : ℚ) / toDouble (whole : ℚ)) :=
    toDouble_nonneg (div_nonneg a0 b0)
  unfold percentage
  exact toDouble_mono (mul_nonneg q0 (by norm_num))
    (mul_le_mul_of_nonneg_right hq (by norm_num))

/-- The values rounded on the way to a percentage stay far below the largest binary64
number. -/
theorem percentage_le_two_pow {part whole : Nat} (hp : part < U64) (hw : 0 < whole) :
    toDouble (part : ℚ) ≤ 2 ^ 64 ∧
    toDouble (toDouble (part : ℚ) / toDouble (whole : ℚ)) ≤ 2 ^ 64 ∧
    percentage part whole ≤ 2 ^ 71 := by
  have hb := one_le_toDouble_natCast hw
  have b0 : 0 < toDouble (whole : ℚ) := by linarith
  have a0 : 0 ≤ toDouble (part : ℚ) := toDouble_nonneg (Nat.cast_nonneg _)
  have ha : toDouble (part : ℚ) ≤ 2 ^ 64 := by
    have h1 : (part : ℚ) ≤ 2 ^ 64 := by
      unfold U64 at hp
      exact_mod_cast hp.le
    have := toDouble_mono (Nat.cast_nonneg _) h1
    rwa [toDouble_two_pow_64] at this
  have hdiv : toDouble (part : ℚ) / toDouble (whole : ℚ) ≤ 2 ^ 64 := by
    rw [div_le_iff₀ b0]
    nlinarith
  have hq : toDouble (toDouble (part : ℚ) / toDouble (whole : ℚ)) ≤ 2 ^ 64 := by
    have := toDouble_mono (div_nonneg a0 b0.le) hdiv
    rwa [toDouble_two_pow_64] at this
  have q0 : 0 ≤ toDouble (toDouble (part : ℚ) / toDouble (whole : ℚ)) :=
    toDouble_nonneg (div_nonneg a0 b0.le)
  refine ⟨ha, hq, ?_⟩
  unfold percentage
  have := toDouble_mono (mul_nonneg q0 (by norm_num))
    (show toDouble (toDouble (part : ℚ) / toDouble (whole : ℚ)) * 100 ≤ 2 ^ 71 by
      norm_num at hq ⊢
      linarith)
  rwa [toDouble_two_pow_71] at this

theorem percentage_7_100 : percentage 7 100 = 7881299347898369 / 2 ^ 50 := by
  apply percentage_eval 7 100 7 100 (5044031582654956 / 2 ^ 56)
  · rw [Nat.cast_ofNat, toDouble_eval 2 (-50) (7 * 2 ^ 50) (by norm_num) (by norm_num)
      (by norm_num) (by norm_num)]
    norm_num
  · rw [Nat.cast_ofNat]
    exact toDouble_hundred
  · rw [toDouble_eval (-4) (-56) 5044031582654956 (by norm_num) (by norm_num) (by norm_num)
      (by norm_num [abs_lt])]
    norm_num
  · rw [toDouble_eval 2 (-50) 7881299347898369 (by norm_num) (by norm_num) (by norm_num)
      (by norm_num [abs_lt])]
    norm_num

theorem percentage_150_1000 : percentage 150 1000 = 15 := by
  apply percentage_eval 150 1000 150 1000 (5404319552844595 / 2 ^ 55)
  · rw [Nat.cast_ofNat, toDouble_eval 7 (-45) (150 * 2 ^ 45) (by norm_num) (by norm_num)
      (by norm_num) (by norm_num)]
    norm_num
  · rw [Nat.cast_ofNat, toDouble_eval 9 (-43) (1000 * 2 ^ 43) (by norm_num) (by norm_num)
      (by norm_num) (by norm_num)]
    norm_num
  · rw [toDouble_eval (-3) (-55) 5404319552844595 (by norm_num) (by norm_num) (by norm_num)
      (by norm_num [abs_lt])]
    norm_num
  · rw [toDouble_eval 3 (-49) (15 * 2 ^ 49) (by norm_num) (by norm_num) (by norm_num)
      (by norm_num [abs_lt])]
    norm_num

theorem percentage_6000000_8000000 : percentage 6000000 8000000 = 75 := by
  apply percentage_eval 6000000 8000000 6000000 8000000 (3 / 4)
  · rw [Nat.cast_ofNat, toDouble_eval 22 (-30) (6000000 * 2 ^ 30) (by norm_num)
      (by norm_num) (by norm_num) (by norm_num)]
    norm_num
  · rw [Nat.cast_ofNat, toDouble_eval 22 (-30) (8000000 * 2 ^ 30) (by norm_num)
      (by norm_num) (by norm_num) (by norm_num)]
    norm_num
  · rw [toDouble_eval (-1) (-53) (3 * 2 ^ 51) (by norm_num) (by norm_num) (by norm_num)
      (by norm_num)]
    norm_num
  · rw [toDouble_eval 6 (-46) (75 * 2 ^ 46) (by norm_num) (by norm_num) (by norm_num)
      (by norm_num)]
    norm_num

theorem percentage_100_100 : percentage 100 100 = 100 := by
  apply percentage_eval 100 100 100 100 1
  · rw [Nat.cast_ofNat]
    exact toDouble_hundred
  · rw [Nat.cast_ofNat]
    exact toDouble_hundred
  · rw [div_self (by norm_num)]
    exact toDouble_one
  · rw [one_mul]
    exact toDouble_hundred

theorem percentage_50_100 : percentage 50 100 = 50 := by
  apply percentage_eval 50 100 50 100 (1 / 2)
  · rw [Nat.cast_ofNat, toDouble_eval 5 (-47) (50 * 2 ^ 47) (by norm_num) (by norm_num)
      (by norm_num) (by norm_num)]
    norm_num
  · rw [Nat.cast_ofNat]
    exact toDouble_hundred
  · rw [toDouble_eval (-1) (-53) (2 ^ 52) (by norm_num) (by norm_num) (by norm_num)
      (by norm_num)]
    norm_num
  · rw [toDouble_eval 5 (-47) (50 * 2 ^ 47) (by norm_num) (by norm_num) (by norm_num)
      (by norm_num)]
    norm_num

theorem percentage_wrapped :
    percentage 18446744073709551606 10 = 184467440737095516160 := by
  apply percentage_eval 18446744073709551606 10 (2 ^ 64) 10 (7205759403792794 * 2 ^ 8)
  · rw [Nat.cast_ofNat, toDouble_eval 63 11 (2 ^ 53) (by norm_num) (by norm_num)
      (by norm_num) (by norm_num [abs_lt])]
    norm_num
  · rw [Nat.cast_ofNat, toDouble_eval 3 (-49) (10 * 2 ^ 49) (by norm_num) (by norm_num)
      (by norm_num) (by norm_num)]
    norm_num
  · rw [toDouble_eval 60 8 7205759403792794 (by norm_num) (by norm_num) (by norm_num)
      (by norm_num [abs_lt])]
    norm_num
  · rw [toDouble_eval 67 15 5629499534213120 (by norm_num) (by norm_num) (by norm_num)
      (by norm_num [abs_lt])]
    norm_num

theorem percentage_two_pow_60 :
    percentage 1152921504606846976 1152921504606846976 = 100 ∧
    percentage 1152921504606846975 1152921504606846976 = 100 := by
  have hb : toDouble ((1152921504606846976 : ℕ) : ℚ) = 2 ^ 60 := by
    rw [Nat.cast_ofNat, toDouble_eval 60 8 (2 ^ 52) (by norm_num) (by norm_num)
      (by norm_num) (by norm_num)]
    norm_num
  have ha : toDouble ((1152921504606846975 : ℕ) : ℚ) = 2 ^ 60 := by
    rw [Nat.cast_ofNat, toDouble_eval 59 7 (2 ^ 53) (by norm_num) (by norm_num)
      (by norm_num) (by norm_num [abs_lt])]
    norm_num
  have hq : toDouble ((2 : ℚ) ^ 60 / 2 ^ 60) = 1 := by
    rw [div_self (by norm_num)]
    exact toDouble_one
  have hr : toDouble ((1 : ℚ) * 100) = 100 := by
    rw [one_mul]
    exact toDouble_hundred
  exact ⟨percentage_eval _ _ _ _ _ _ hb hb hq hr, percentage_eval _ _ _ _ _ _ ha hb hq hr⟩

/-! ## Facts on `calculateCpuUsage` -/

theorem calculateCpuUsage_eq (prev curr : CpuTicks) :
    calculateCpuUsage prev curr =
      if totalDiff prev curr = 0 then 0
      else percentage (u64sub (totalDiff prev curr) (idleDiff prev curr))
        (totalDiff prev curr) := rfl

theorem calculateCpuUsage_nonneg (prev curr : CpuTicks) : 0 ≤ calculateCpuUsage prev curr := by
  rw [calculateCpuUsage_eq]
  split
  · exact le_refl _
  · exact percentage_nonneg _ _

theorem calculateCpuUsage_le_of (prev curr : CpuTicks)
    (h : totalDiff prev curr = 0 ∨ idleDiff prev curr ≤ totalDiff prev curr) :
    calculateCpuUsage prev curr ≤ 100 := by
  rw [calculateCpuUsage_eq]
  by_cases h0 : totalDiff prev curr = 0
  · rw [if_pos h0]
    norm_num
  · rw [if_neg h0]
    rcases h with h | h
    · exact absurd h h0
    · exact percentage_le_hundred (Nat.pos_of_ne_zero h0)
        ((u64sub_le_iff (u64sub_lt _ _) (u64sub_lt _ _)).mpr h)

/-! ## Claims on `calculateCpuUsage` -/

/-- C1 (counterexample): from the all-zero snapshot to the one with 7 active and 93
idle ticks every counter grows and nothing overflows, yet the value returned is
`7881299347898369 / 2 ^ 50` (printed `7.000000000000001`), not the exact quotient
`100 * (100 - 93) / 100 = 7`: the division of 7 by 100 is rounded before the
multiplication by 100. -/
theorem C1_counterexample :
    (zeroTicks.user ≤ sevenTicks.user ∧ zeroTicks.nice ≤ sevenTicks.nice ∧
      zeroTicks.system ≤ sevenTicks.system ∧ zeroTicks.idle ≤ sevenTicks.idle ∧
      zeroTicks.iowait ≤ sevenTicks.iowait ∧ zeroTicks.irq ≤ sevenTicks.irq ∧
      zeroTicks.softirq ≤ sevenTicks.softirq ∧ zeroTicks.steal ≤ sevenTicks.steal) ∧
    sevenTicks.exactSum < U64 ∧ sevenTicks.getTotal ≠ zeroTicks.getTotal ∧
    calculateCpuUsage zeroTicks sevenTicks = 7881299347898369 / 2 ^ 50 ∧
    calculateCpuUsage zeroTicks sevenTicks ≠
      100 * ((((sevenTicks.getTotal : Nat) : ℚ) - ((zeroTicks.getTotal : Nat) : ℚ))
              - (((sevenTicks.getTotalIdle : Nat) : ℚ) - ((zeroTicks.getTotalIdle : Nat) : ℚ)))
        / (((sevenTicks.getTotal : Nat) : ℚ) - ((zeroTicks.getTotal : Nat) : ℚ)) := by
  have e : calculateCpuUsage zeroTicks sevenTicks = 7881299347898369 / 2 ^ 50 := by
    rw [calculateCpuUsage_eq]
    have e1 : totalDiff zeroTicks sevenTicks = 100 := by decide
    have e2 : idleDiff zeroTicks sevenTicks = 93 := by decide
    have e3 : u64sub 100 93 = 7 := by decide
    rw [e1, e2, e3, if_neg (by decide)]
    exact percentage_7_100
  have g1 : sevenTicks.getTotal = 100 := by decide
  have g2 : zeroTicks.getTotal = 0 := by decide
  have g3 : sevenTicks.getTotalIdle = 93 := by decide
  have g4 : zeroTicks.getTotalIdle = 0 := by decide
  refine ⟨by decide, by decide, by decide, e, ?_⟩
  rw [e, g1, g2, g3, g4]
  norm_num

/-- C1 (amended): when every counter of `curr` is at least the counter of `prev` and the
sum of the counters of `curr` fits in 64 bits, `calculateCpuUsage prev curr` is `0` if
the totals are equal; otherwise it is the binary64 evaluation of
`(double(totalDelta - idleDelta) / double(totalDelta)) * 100.0`, which differs from the
exact quotient `100 * (totalDelta - idleDelta) / totalDelta` by at most the fraction
`2 ^ (-50)` of that quotient and lies between `0` and `100`; on the worked example the
result is exactly `15`. -/
theorem C1_calculateCpuUsage_rounded (prev curr : CpuTicks)
    (h1 : prev.user ≤ curr.user) (h2 : prev.nice ≤ curr.nice)
    (h3 : prev.system ≤ curr.system) (h4 : prev.idle ≤ curr.idle)
    (h5 : prev.iowait ≤ curr.iowait) (h6 : prev.irq ≤ curr.irq)
    (h7 : prev.softirq ≤ curr.softirq) (h8 : prev.steal ≤ curr.steal)
    (hc : curr.exactSum < U64) :
    (curr.getTotal = prev.getTotal → calculateCpuUsage prev curr = 0) ∧
    (curr.getTotal ≠ prev.getTotal →
      calculateCpuUsage prev curr =
        percentage ((curr.getTotal - prev.getTotal) - (curr.getTotalIdle - prev.getTotalIdle))
          (curr.getTotal - prev.getTotal) ∧
      |calculateCpuUsage prev curr -
          100 * ((((curr.getTotal : Nat) : ℚ) - ((prev.getTotal : Nat) : ℚ))
                  - (((curr.getTotalIdle : Nat) : ℚ) - ((prev.getTotalIdle : Nat) : ℚ)))
            / (((curr.getTotal : Nat) : ℚ) - ((prev.getTotal : Nat) : ℚ))|
        ≤ (100 * ((((curr.getTotal : Nat) : ℚ) - ((prev.getTotal : Nat) : ℚ))
                  - (((curr.getTotalIdle : Nat) : ℚ) - ((prev.getTotalIdle : Nat) : ℚ)))
            / (((curr.getTotal : Nat) : ℚ) - ((prev.getTotal : Nat) : ℚ))) / 2 ^ 50 ∧
      0 ≤ calculateCpuUsage prev curr ∧ calculateCpuUsage prev curr ≤ 100) ∧
    calculateCpuUsage exampleBaseline exampleCurrent = 15 := by
  have hp : prev.exactSum < U64 := by
    unfold CpuTicks.exactSum at *
    omega
  obtain ⟨hpi, -, hpt⟩ := sums_of_exactSum_lt prev hp
  obtain ⟨hci, -, hct⟩ := sums_of_exactSum_lt curr hc
  have hle : prev.getTotal ≤ curr.getTotal := by
    rw [hpt, hct]; unfold CpuTicks.exactSum; omega
  have hile : prev.getTotalIdle ≤ curr.getTotalIdle := by
    rw [hpi, hci]; omega
  have hT : totalDiff prev curr = curr.getTotal - prev.getTotal :=
    u64sub_of_le hle (getTotal_lt curr)
  have hI : idleDiff prev curr = curr.getTotalIdle - prev.getTotalIdle :=
    u64sub_of_le hile (getTotalIdle_lt curr)
  have hIT : idleDiff prev curr ≤ totalDiff prev curr := by
    rw [hT, hI, hpt, hct, hpi, hci]; unfold CpuTicks.exactSum; omega
  have hIT2 : curr.getTotalIdle - prev.getTotalIdle ≤ curr.getTotal - prev.getTotal := by
    rw [← hT, ← hI]; exact hIT
  refine ⟨?_, ?_, ?_⟩
  · intro h
    rw [calculateCpuUsage_eq, hT, h, Nat.sub_self, if_pos rfl]
  · intro h
    have h0 : totalDiff prev curr ≠ 0 := by rw [hT]; omega
    have e : calculateCpuUsage prev curr =
        percentage ((curr.getTotal - prev.getTotal) - (curr.getTotalIdle - prev.getTotalIdle))
          (curr.getTotal - prev.getTotal) := by
      rw [calculateCpuUsage_eq, if_neg h0, u64sub_of_le hIT (u64sub_lt _ _), hT, hI]
    have hw : curr.getTotal - prev.getTotal < U64 := by
      rw [← hT]; exact u64sub_lt _ _
    have herr := percentage_rel_err
      ((curr.getTotal - prev.getTotal) - (curr.getTotalIdle - prev.getTotalIdle))
      (curr.getTotal - prev.getTotal) (by omega) hw
    rw [Nat.cast_sub hIT2, Nat.cast_sub hle, Nat.cast_sub hile, ← e] at herr
    exact ⟨e, herr, calculateCpuUsage_nonneg prev curr,
      calculateCpuUsage_le_of prev curr (Or.inr hIT)⟩
  · rw [calculateCpuUsage_eq]
    have e1 : totalDiff exampleBaseline exampleCurrent = 1000 := by decide
    have e2 : idleDiff exampleBaseline exampleCurrent = 850 := by decide
    have e3 : u64sub 1000 850 = 150 := by decide
    rw [e1, e2, e3, if_neg (by decide)]
    exact percentage_150_1000

/-- Witness of C1 (amended) on the worked example. -/
theorem C1_calculateCpuUsage_rounded_witness :
    exampleCurrent.getTotal ≠ exampleBaseline.getTotal ∧
    calculateCpuUsage exampleBaseline exampleCurrent =
      percentage ((exampleCurrent.getTotal - exampleBaseline.getTotal)
          - (exampleCurrent.getTotalIdle - exampleBaseline.getTotalIdle))
        (exampleCurrent.getTotal - exampleBaseline.getTotal) :=
  ⟨by decide,
   ((C1_calculateCpuUsage_rounded exampleBaseline exampleCurrent (by decide) (by decide)
      (by decide) (by decide) (by decide) (by decide) (by decide) (by decide)
      (by decide)).2.1 (by decide)).1⟩

/-- C2: when the aggregate counters increase (idle total and active total do not
decrease, the total strictly increases) and no sum overflows, the result of
`calculateCpuUsage` lies in the closed interval from `0` to `100`. -/
theorem C2_calculateCpuUsage_in_range (prev curr : CpuTicks)
    (hI : prev.getTotalIdle ≤ curr.getTotalIdle)
    (hA : prev.getTotalActive ≤ curr.getTotalActive)
    (hT : prev.getTotal < curr.getTotal)
    (hp : prev.exactSum < U64) (hc : curr.exactSum < U64) :
    0 ≤ calculateCpuUsage prev curr ∧ calculateCpuUsage prev curr ≤ 100 := by
  refine ⟨calculateCpuUsage_nonneg prev curr, ?_⟩
  apply calculateCpuUsage_le_of
  right
  obtain ⟨hpi, hpa, hpt⟩ := sums_of_exactSum_lt prev hp
  obtain ⟨hci, hca, hct⟩ := sums_of_exactSum_lt curr hc
  have hT1 : totalDiff prev curr = curr.getTotal - prev.getTotal :=
    u64sub_of_le (le_of_lt hT) (getTotal_lt curr)
  have hI1 : idleDiff prev curr = curr.getTotalIdle - prev.getTotalIdle :=
    u64sub_of_le hI (getTotalIdle_lt curr)
  rw [hT1, hI1]
  rw [hpa, hca] at hA
  rw [hpi, hci] at hI ⊢
  rw [hpt, hct] at hT ⊢
  unfold CpuTicks.exactSum at *
  omega

/-- Witness of C2 on the worked example. -/
theorem C2_calculateCpuUsage_in_range_witness :
    0 ≤ calculateCpuUsage exampleBaseline exampleCurrent ∧
    calculateCpuUsage exampleBaseline exampleCurrent ≤ 100 :=
  C2_calculateCpuUsage_in_range exampleBaseline exampleCurrent (by decide) (by decide)
    (by decide) (by decide) (by decide)

/-- C3 (counterexample): on the wrapping pair `totalDiff` is 10 and `idleDiff` 20, the
subtraction `totalDiff - idleDiff` wraps around to `2 ^ 64 - 10`, and the value returned
is `184467440737095516160`, far above `100`: nothing clamps it. -/
theorem C3_counterexample :
    calculateCpuUsage wrapPrev wrapCurr = 184467440737095516160 ∧
    ¬ (0 ≤ calculateCpuUsage wrapPrev wrapCurr ∧ calculateCpuUsage wrapPrev wrapCurr ≤ 100) := by
  have e : calculateCpuUsage wrapPrev wrapCurr = 184467440737095516160 := by
    rw [calculateCpuUsage_eq]
    have e1 : totalDiff wrapPrev wrapCurr = 10 := by decide
    have e2 : idleDiff wrapPrev wrapCurr = 20 := by decide
    have e3 : u64sub 10 20 = 18446744073709551606 := by decide
    rw [e1, e2, e3, if_neg (by decide)]
    exact percentage_wrapped
  refine ⟨e, ?_⟩
  rw [e]
  norm_num

/-- C3 (amended): for every pair of snapshots the result of `calculateCpuUsage` is never
negative; it is `0` when the wrapped total difference is zero; and it is at most `100`
whenever the wrapped total difference is zero or the wrapped idle difference does not
exceed it.  No clamping takes place, so outside these cases the result can exceed
`100`. -/
theorem C3_calculateCpuUsage_unclamped (prev curr : CpuTicks) :
    0 ≤ calculateCpuUsage prev curr ∧
    ((totalDiff prev curr = 0 ∨ idleDiff prev curr ≤ totalDiff prev curr) →
      calculateCpuUsage prev curr ≤ 100) ∧
    (totalDiff prev curr = 0 → calculateCpuUsage prev curr = 0) :=
  ⟨calculateCpuUsage_nonneg prev curr, calculateCpuUsage_le_of prev curr, fun h => by
    rw [calculateCpuUsage_eq, if_pos h]⟩

/-! ## Facts on the memory scan -/

theorem U64_pos : 0 < U64 := by unfold U64; norm_num

theorem extractULL_lt (s : IStream) (old : Nat) (h : old < U64) :
    (extractULL s old).1 < U64 := by
  have hU := U64_pos
  unfold extractULL
  split
  · exact h
  · dsimp only
    split
    · exact hU
    · split
      · dsimp only
        omega
      · dsimp only
        split
        · exact u64sub_lt _ _
        · omega

theorem parseMemLine_lt (junk : Nat) (line : String) : (parseMemLine junk line).2 < U64 :=
  extractULL_lt _ _ (Nat.mod_lt _ U64_pos)

theorem scanMemInfo_cons (junk : Nat → Nat) (i : Nat) (line : String) (rest : List String)
    (t0 a0 : Nat) :
    scanMemInfo junk i (line :: rest) t0 a0 =
      if 0 < (memStep (parseMemLine (junk i) line) t0 a0).1
          ∧ 0 < (memStep (parseMemLine (junk i) line) t0 a0).2
      then memStep (parseMemLine (junk i) line) t0 a0
      else scanMemInfo junk (i + 1) rest (memStep (parseMemLine (junk i) line) t0 a0).1
        (memStep (parseMemLine (junk i) line) t0 a0).2 := rfl

theorem memStep_lt (kv : List Char × Nat) (t0 a0 : Nat) (hv : kv.2 < U64)
    (ht : t0 < U64) (ha : a0 < U64) :
    (memStep kv t0 a0).1 < U64 ∧ (memStep kv t0 a0).2 < U64 := by
  unfold memStep
  split
  · exact ⟨hv, ha⟩
  · split
    · exact ⟨ht, hv⟩
    · exact ⟨ht, ha⟩

theorem scanMemInfo_lt (junk : Nat → Nat) (lines : List String) :
    ∀ (i t0 a0 : Nat), t0 < U64 → a0 < U64 →
      (scanMemInfo junk i lines t0 a0).1 < U64 ∧ (scanMemInfo junk i lines t0 a0).2 < U64 := by
  induction lines with
  | nil => intro i t0 a0 ht ha; exact ⟨ht, ha⟩
  | cons line rest ih =>
    intro i t0 a0 ht ha
    have hm := memStep_lt (parseMemLine (junk i) line) t0 a0 (parseMemLine_lt (junk i) line) ht ha
    rw [scanMemInfo_cons]
    split
    · exact hm
    · exact ih _ _ _ hm.1 hm.2

theorem captured_lt (junk : Nat → Nat) (lines : List String) :
    (captured junk lines).1 < U64 ∧ (captured junk lines).2 < U64 :=
  scanMemInfo_lt junk lines 0 0 0 U64_pos U64_pos

theorem readRamUsage_some (junk : Nat → Nat) (lines : List String) :
    readRamUsage junk (some lines) =
      if (captured junk lines).1 = 0 then -1
      else percentage (u64sub (captured junk lines).1 (captured junk lines).2)
        (captured junk lines).1 := rfl

/-- The value returned is the error value or a value that is not negative. -/
theorem readRamUsage_sentinel_or_nonneg (junk : Nat → Nat) (meminfo : Option (List String)) :
    readRamUsage junk meminfo = -1 ∨ 0 ≤ readRamUsage junk meminfo := by
  cases meminfo with
  | none => left; rfl
  | some lines =>
    rw [readRamUsage_some]
    split
    · left; rfl
    · right; exact percentage_nonneg _ _

/-- When the loop is entered with the two variables not both positive and is left with
both positive on `pre`, lines appended to `pre` are not read. -/
theorem scanMemInfo_append (junk : Nat → Nat) (pre post : List String) :
    ∀ (i t0 a0 : Nat), ¬ (0 < t0 ∧ 0 < a0) →
      0 < (scanMemInfo junk i pre t0 a0).1 → 0 < (scanMemInfo junk i pre t0 a0).2 →
      scanMemInfo junk i (pre ++ post) t0 a0 = scanMemInfo junk i pre t0 a0 := by
  induction pre with
  | nil =>
    intro i t0 a0 h0 ht ha
    exact absurd ⟨ht, ha⟩ h0
  | cons line rest ih =>
    intro i t0 a0 _ ht ha
    rw [List.cons_append, scanMemInfo_cons]
    rw [scanMemInfo_cons] at ht ha ⊢
    by_cases hb : 0 < (memStep (parseMemLine (junk i) line) t0 a0).1
        ∧ 0 < (memStep (parseMemLine (junk i) line) t0 a0).2
    · rw [if_pos hb, if_pos hb]
    · rw [if_neg hb] at ht ha
      rw [if_neg hb, if_neg hb]
      exact ih _ _ _ hb ht ha

/-- When every line keyed `MemTotal:` carries the value zero, `memTotal` stays zero. -/
theorem scanMemInfo_total_zero (junk : Nat → Nat) (lines : List String) :
    ∀ (i a0 : Nat),
      (∀ (k : Nat) (line : String), lines[k]? = some line →
        (parseMemLine (junk (i + k)) line).1 = "MemTotal:".toList →
        (parseMemLine (junk (i + k)) line).2 = 0) →
      (scanMemInfo junk i lines 0 a0).1 = 0 := by
  induction lines with
  | nil => intro i a0 _; rfl
  | cons line rest ih =>
    intro i a0 h
    have h0 := h 0 line (by simp)
    have hz : (memStep (parseMemLine (junk i) line) 0 a0).1 = 0 := by
      unfold memStep
      split
      · rename_i hk
        exact h0 hk
      · split <;> rfl
    rw [scanMemInfo_cons, if_neg (by omega), hz]
    apply ih
    intro k l hl hk
    have := h (k + 1) l (by simpa using hl)
    rw [show i + (k + 1) = i + 1 + k by omega] at this
    exact this hk

/-! ## Claims on `readRamUsage` -/

theorem readRamUsage_exampleMeminfo (j : Nat → Nat) :
    captured j exampleMeminfo = (8000000, 2000000) ∧
    readRamUsage j (some exampleMeminfo) = 75 := by
  have hc : captured j exampleMeminfo = (8000000, 2000000) := by rfl
  refine ⟨hc, ?_⟩
  rw [readRamUsage_some, hc]
  dsimp only
  have e3 : u64sub 8000000 2000000 = 6000000 := by decide
  rw [e3, if_neg (by decide)]
  exact percentage_6000000_8000000

/-- C4 (counterexample): with `MemTotal = 100` and `MemAvailable = 93` captured, the
value returned is `7881299347898369 / 2 ^ 50` (printed `7.000000000000001`), not the
exact quotient `100 * (100 - 93) / 100 = 7`; and with `MemTotal = 2 ^ 60` the value
returned is `100` both for `MemAvailable = 0` and for `MemAvailable = 1`, so a larger
difference `t - a` does not always give a larger result. -/
theorem C4_counterexample :
    captured zeroJunk sevenMeminfo = (100, 93) ∧
    readRamUsage zeroJunk (some sevenMeminfo) = 7881299347898369 / 2 ^ 50 ∧
    readRamUsage zeroJunk (some sevenMeminfo)
      ≠ 100 * (((100 : Nat) : ℚ) - ((93 : Nat) : ℚ)) / ((100 : Nat) : ℚ) ∧
    captured zeroJunk fullMeminfo = (1152921504606846976, 0) ∧
    captured zeroJunk tightMeminfo = (1152921504606846976, 1) ∧
    readRamUsage zeroJunk (some fullMeminfo) = 100 ∧
    readRamUsage zeroJunk (some tightMeminfo) = 100 := by
  have c1 : captured zeroJunk sevenMeminfo = (100, 93) := by rfl
  have c2 : captured zeroJunk fullMeminfo = (1152921504606846976, 0) := by rfl
  have c3 : captured zeroJunk tightMeminfo = (1152921504606846976, 1) := by rfl
  have e1 : readRamUsage zeroJunk (some sevenMeminfo) = 7881299347898369 / 2 ^ 50 := by
    rw [readRamUsage_some, c1]
    dsimp only
    have : u64sub 100 93 = 7 := by decide
    rw [this, if_neg (by decide)]
    exact percentage_7_100
  have e2 : readRamUsage zeroJunk (some fullMeminfo) = 100 := by
    rw [readRamUsage_some, c2]
    dsimp only
    have : u64sub 1152921504606846976 0 = 1152921504606846976 := by decide
    rw [this, if_neg (by decide)]
    exact percentage_two_pow_60.1
  have e3 : readRamUsage zeroJunk (some tightMeminfo) = 100 := by
    rw [readRamUsage_some, c3]
    dsimp only
    have : u64sub 1152921504606846976 1 = 1152921504606846975 := by decide
    rw [this, if_neg (by decide)]
    exact percentage_two_pow_60.2
  refine ⟨c1, e1, ?_, c2, c3, e2, e3⟩
  rw [e1]
  norm_num

/-- C4 (amended): when `readRamUsage` captures `MemTotal = t` and `MemAvailable = a`
with `0 < t` and `a ≤ t`, it returns the binary64 evaluation of
`(double(t - a) / double(t)) * 100.0`, which differs from the exact quotient
`100 * (t - a) / t` by at most the fraction `2 ^ (-50)` of that quotient and lies
between `0` and `100`; it returns `0` when `a = t`; for the same `t` a larger difference
`t - a` never gives a smaller result; and on the worked example (`t = 8000000`,
`a = 2000000`) it returns exactly `75`. -/
theorem C4_readRamUsage_rounded (junk : Nat → Nat) (lines : List String) (t a : Nat)
    (hcap : captured junk lines = (t, a)) (ht : 0 < t) (ha : a ≤ t) :
    readRamUsage junk (some lines) = percentage (t - a) t ∧
    |readRamUsage junk (some lines) - 100 * ((t : ℚ) - (a : ℚ)) / (t : ℚ)|
      ≤ (100 * ((t : ℚ) - (a : ℚ)) / (t : ℚ)) / 2 ^ 50 ∧
    0 ≤ readRamUsage junk (some lines) ∧
    readRamUsage junk (some lines) ≤ 100 ∧
    (a = t → readRamUsage junk (some lines) = 0) ∧
    (∀ (junk2 : Nat → Nat) (lines2 : List String) (a2 : Nat),
      captured junk2 lines2 = (t, a2) → a2 ≤ t → t - a ≤ t - a2 →
      readRamUsage junk (some lines) ≤ readRamUsage junk2 (some lines2)) ∧
    (∀ j : Nat → Nat, captured j exampleMeminfo = (8000000, 2000000) ∧
      readRamUsage j (some exampleMeminfo) = 75) := by
  have hlt : t < U64 := by
    have := (captured_lt junk lines).1
    rw [hcap] at this
    exact this
  have key : ∀ (j : Nat → Nat) (ls : List String) (b : Nat), captured j ls = (t, b) → b ≤ t →
      readRamUsage j (some ls) = percentage (t - b) t := by
    intro j ls b hc hb
    rw [readRamUsage_some, hc]
    dsimp only
    rw [if_neg (by omega), u64sub_of_le hb hlt]
  have e := key junk lines a hcap ha
  have herr := percentage_rel_err (t - a) t ht hlt
  rw [Nat.cast_sub ha, ← e] at herr
  refine ⟨e, herr, ?_, ?_, ?_, ?_, readRamUsage_exampleMeminfo⟩
  · rw [e]
    exact percentage_nonneg _ _
  · rw [e]
    exact percentage_le_hundred ht (Nat.sub_le t a)
  · intro hat
    rw [e, hat, Nat.sub_self]
    exact percentage_zero t
  · intro junk2 lines2 a2 hc2 ha2 hle
    rw [e, key junk2 lines2 a2 hc2 ha2]
    exact percentage_mono t hle

/-- Witness of C4 (amended) on the worked example. -/
theorem C4_readRamUsage_rounded_witness :
    readRamUsage zeroJunk (some exampleMeminfo) = percentage (8000000 - 2000000) 8000000 :=
  (C4_readRamUsage_rounded zeroJunk exampleMeminfo 8000000 2000000 (by rfl) (by decide)
    (by decide)).1

/-- C5: when `/proc/meminfo` cannot be opened, or has no line keyed `MemTotal:`, or
every line so keyed carries the value zero, `readRamUsage` returns the error value `-1`
with `memTotal` zero at the test that guards the division; and whatever the content, a
result other than the error value comes from a division by a positive `memTotal`. -/
theorem C5_readRamUsage_fails (junk : Nat → Nat) (meminfo : Option (List String))
    (h : ∀ (lines : List String), meminfo = some lines →
      ∀ (k : Nat) (line : String), lines[k]? = some line →
        (parseMemLine (junk k) line).1 = "MemTotal:".toList →
        (parseMemLine (junk k) line).2 = 0) :
    readRamUsage junk meminfo = -1 ∧
    (∀ lines : List String, meminfo = some lines → (captured junk lines).1 = 0) ∧
    (∀ (j : Nat → Nat) (ls : List String),
      readRamUsage j (some ls) ≠ -1 → 0 < (captured j ls).1) := by
  have hz : ∀ lines : List String, meminfo = some lines → (captured junk lines).1 = 0 := by
    intro lines hl
    apply scanMemInfo_total_zero
    intro k line hk
    rw [Nat.zero_add]
    exact h lines hl k line hk
  refine ⟨?_, hz, ?_⟩
  · cases meminfo with
    | none => rfl
    | some lines =>
      rw [readRamUsage_some, if_pos (hz lines rfl)]
  · intro j ls hne
    rw [readRamUsage_some] at hne
    by_contra h0
    exact hne (if_pos (by omega))

/-- Witness of C5 on a content with no line keyed `MemTotal:`. -/
theorem C5_readRamUsage_fails_witness :
    readRamUsage zeroJunk (some ["MemFree: 12 kB", "MemAvailable: 5 kB"]) = -1 :=
  (C5_readRamUsage_fails zeroJunk (some ["MemFree: 12 kB", "MemAvailable: 5 kB"]) (by
    intro lines hl k line hk hkey
    cases hl
    match k, hk with
    | 0, hk => cases hk; exact absurd hkey (by decide)
    | 1, hk => cases hk; exact absurd hkey (by decide)
    | (n + 2), hk => cases hk)).1

/-- C7 (counterexample): in `repeatedMeminfo` the first line is keyed `MemTotal:` and
the second `MemAvailable:`, yet the third line changes the result: on the first two
lines `readRamUsage` returns `100`, on the whole content `50`. -/
theorem C7_counterexample :
    (parseMemLine 0 "MemTotal: 100 kB").1 = "MemTotal:".toList ∧
    (parseMemLine 0 "MemAvailable: 0 kB").1 = "MemAvailable:".toList ∧
    readRamUsage zeroJunk (some (repeatedMeminfo.take 2)) = 100 ∧
    readRamUsage zeroJunk (some repeatedMeminfo) = 50 ∧
    readRamUsage zeroJunk (some repeatedMeminfo)
      ≠ readRamUsage zeroJunk (some (repeatedMeminfo.take 2)) := by
  have c1 : captured zeroJunk (repeatedMeminfo.take 2) = (100, 0) := by rfl
  have c2 : captured zeroJunk repeatedMeminfo = (100, 50) := by rfl
  have e1 : readRamUsage zeroJunk (some (repeatedMeminfo.take 2)) = 100 := by
    rw [readRamUsage_some, c1]
    dsimp only
    have : u64sub 100 0 = 100 := by decide
    rw [this, if_neg (by decide)]
    exact percentage_100_100
  have e2 : readRamUsage zeroJunk (some repeatedMeminfo) = 50 := by
    rw [readRamUsage_some, c2]
    dsimp only
    have : u64sub 100 50 = 50 := by decide
    rw [this, if_neg (by decide)]
    exact percentage_50_100
  refine ⟨by decide, by decide, e1, e2, ?_⟩
  rw [e1, e2]
  norm_num

/-- C7 (amended): once the lines read so far have left both captured values positive,
no later line changes them: the captured values and the result of `readRamUsage` on the
whole content are those on that beginning of it, whatever the lines that follow. -/
theorem C7_scan_stops_when_both_positive (junk : Nat → Nat) (pre post : List String)
    (ht : 0 < (captured junk pre).1) (ha : 0 < (captured junk pre).2) :
    captured junk (pre ++ post) = captured junk pre ∧
    readRamUsage junk (some (pre ++ post)) = readRamUsage junk (some pre) := by
  have hc : captured junk (pre ++ post) = captured junk pre :=
    scanMemInfo_append junk pre post 0 0 0 (by omega) ht ha
  refine ⟨hc, ?_⟩
  rw [readRamUsage_some, readRamUsage_some, hc]

/-- Witness of C7 (amended): a repeated `MemTotal:` line after both values are captured
is not read. -/
theorem C7_scan_stops_when_both_positive_witness :
    captured zeroJunk (exampleMeminfo ++ ["MemTotal: 5 kB"]) = captured zeroJunk exampleMeminfo ∧
    readRamUsage zeroJunk (some (exampleMeminfo ++ ["MemTotal: 5 kB"]))
      = readRamUsage zeroJunk (some exampleMeminfo) :=
  C7_scan_stops_when_both_positive zeroJunk exampleMeminfo ["MemTotal: 5 kB"]
    (by decide) (by decide)

/-! ## Claims on `readCpuTicks` -/

theorem extractString_ofString (line : String) :
    (extractString (IStream.ofString line) []).1 = firstToken line := by
  unfold extractString sentry IStream.ofString firstToken
  dsimp only
  cases h : line.toList.dropWhile isSpace with
  | nil => simp
  | cons c cs => simp

/-- C6 (counterexample): on a first line with the label `cpu` and three counters only,
`readCpuTicks` returns `true`; the five counters that were not parsed keep the content
the object had before the call. -/
theorem C6_counterexample :
    readCpuTicks (some shortStat) staleTicks = (true, ⟨1, 2, 3, 9, 9, 9, 9, 9⟩) := by
  decide

/-- C6 (amended): `readCpuTicks` returns `true` exactly when the file can be opened, has
a first line, and the first whitespace-separated token of that line is `cpu`, however
many counters follow the label; when the file cannot be opened or is empty the object
passed is left untouched. -/
theorem C6_readCpuTicks_checks_label_only (stat : Option (List String)) (ticks : CpuTicks) :
    ((readCpuTicks stat ticks).1 = true ↔
      ∃ (line : String) (rest : List String),
        stat = some (line :: rest) ∧ firstToken line = "cpu".toList) ∧
    (stat = none ∨ stat = some [] → readCpuTicks stat ticks = (false, ticks)) := by
  constructor
  · cases stat with
    | none => simp [readCpuTicks]
    | some lines =>
      cases lines with
      | nil => simp [readCpuTicks]
      | cons line rest =>
        have hl := extractString_ofString line
        unfold readCpuTicks
        dsimp only
        rw [hl]
        by_cases hc : firstToken line = "cpu".toList
        · rw [if_neg (not_not.mpr hc)]
          exact ⟨fun _ => ⟨line, rest, rfl, hc⟩, fun _ => rfl⟩
        · rw [if_pos hc]
          constructor
          · intro h
            cases h
          · rintro ⟨l, r, he, ht⟩
            cases he
            exact absurd ht hc
  · rintro (h | h) <;> subst h <;> rfl

/-! ## Claims on `sendTelemetry` -/

theorem strFind_ne_none_iff (s pat : List Char) : strFind s pat ≠ none ↔ pat <:+: s := by
  induction s with
  | nil =>
    unfold strFind
    rw [List.infix_nil]
    cases pat <;> simp
  | cons c cs ih =>
    unfold strFind
    rw [List.infix_cons_iff]
    by_cases hp : pat.isPrefixOf (c :: cs) = true
    · rw [if_pos hp]
      have := List.isPrefixOf_iff_prefix.mp hp
      simp [this]
    · rw [if_neg hp]
      have hn : ¬ pat <+: c :: cs := fun h => hp (List.isPrefixOf_iff_prefix.mpr h)
      constructor
      · intro h
        right
        apply ih.mp
        intro h0
        rw [h0] at h
        exact h rfl
      · rintro (h | h)
        · exact absurd h hn
        · have := ih.mpr h
          intro h0
          cases hs : strFind cs pat with
          | none => exact this hs
          | some k => rw [hs] at h0; cases h0

theorem takeWhile_append_terminator (l : List Char) :
    (l ++ [NUL]).takeWhile (fun c => c != NUL) = l.takeWhile (fun c => c != NUL) := by
  induction l with
  | nil => simp [List.takeWhile]
  | cons c cs ih =>
    rw [List.cons_append, List.takeWhile_cons, List.takeWhile_cons, ih]

theorem responseText_of_length_le (received : List Char) (h : received.length ≤ 1023) :
    responseText received = received.takeWhile (fun c => c != NUL) := by
  unfold responseText
  rw [List.take_of_length_le h, takeWhile_append_terminator]

theorem takeWhile_of_not_mem (l : List Char) (h : NUL ∉ l) :
    l.takeWhile (fun c => c != NUL) = l := by
  rw [List.takeWhile_eq_self_iff]
  intro c hc
  simp only [bne_iff_ne, ne_eq]
  intro hcn
  exact h (hcn ▸ hc)

/-- C8 (counterexample): the four response bytes `NUL`, `2`, `0`, `0` contain the
substring `200`, and `sendTelemetry` returns `false` on them, every socket call having
succeeded. -/
theorem C8_counterexample :
    "200".toList <:+: nulResponse ∧ nulResponse.length ≤ 1023 ∧
    sendTelemetry (netDelivering nulResponse) = false :=
  ⟨⟨[NUL], [], rfl⟩, by decide, by decide⟩

/-- C8 (amended): when every socket call succeeds and `recv` delivers at most 1023
bytes, `sendTelemetry` returns `true` exactly when the bytes before the first `NUL`
byte contain the contiguous substring `200`; for a response without a `NUL` byte this
is exactly when the response contains `200` anywhere; the response
`HTTP/1.1 500 Internal Server Error` is rejected. -/
theorem C8_sendTelemetry_classifies (net : NetEnv) (received : List Char)
    (h1 : 0 ≤ net.socketResult) (h2 : 0 < net.ptonResult) (h3 : 0 ≤ net.connectResult)
    (h4 : 0 ≤ net.sendResult) (hr : net.recvResult = some received)
    (hlen : received.length ≤ 1023) :
    (sendTelemetry net = true ↔
      "200".toList <:+: received.takeWhile (fun c => c != NUL)) ∧
    (NUL ∉ received → (sendTelemetry net = true ↔ "200".toList <:+: received)) ∧
    (received = errorResponse → sendTelemetry net = false) := by
  have e : sendTelemetry net = true ↔
      "200".toList <:+: received.takeWhile (fun c => c != NUL) := by
    unfold sendTelemetry
    rw [if_neg (by omega), if_neg (by omega), if_neg (by omega), if_neg (by omega), hr]
    dsimp only
    rw [responseText_of_length_le received hlen, ← strFind_ne_none_iff]
    split <;> simp_all
  refine ⟨e, ?_, ?_⟩
  · intro hn
    rw [e, takeWhile_of_not_mem received hn]
  · intro he
    have hnot : ¬ ("200".toList <:+: errorResponse.takeWhile (fun c => c != NUL)) := by
      rw [← strFind_ne_none_iff]
      decide
    rw [he] at e
    cases hs : sendTelemetry net with
    | false => rfl
    | true => exact absurd (e.mp hs) hnot

/-- Witness of C8 (amended) on the response of the worked example. -/
theorem C8_sendTelemetry_classifies_witness :
    sendTelemetry (netDelivering errorResponse) = false :=
  (C8_sendTelemetry_classifies (netDelivering errorResponse) errorResponse (by decide)
    (by decide) (by decide) (by decide) rfl (by decide)).2.2 rfl

/-! ## Claims on the monitoring loop -/

theorem readRamUsage_neg_iff (junk : Nat → Nat) (meminfo : Option (List String)) :
    readRamUsage junk meminfo < 0 ↔ readRamUsage junk meminfo = -1 := by
  rcases readRamUsage_sentinel_or_nonneg junk meminfo with h | h
  · rw [h]; norm_num
  · constructor
    · intro hlt
      linarith
    · intro he
      rw [he] at h
      norm_num at h

/-- C9: in every iteration of the monitoring loop `sendTelemetry` is called exactly when
the CPU read returns `true` and the memory read does not return the error value; an
iteration whose CPU read fails leaves the baseline `prevTicks` as it was, and an
iteration whose CPU read succeeds sets it to the snapshot just read. -/
theorem C9_iteration_sends_and_baseline (st : LoopState) (inp : CycleInput) :
    ((loopIteration st inp).sent.isSome = true ↔
      ((readCpuTicks inp.stat st.currTicks).1 = true ∧
        readRamUsage inp.junk inp.meminfo ≠ -1)) ∧
    ((readCpuTicks inp.stat st.currTicks).1 = false →
      (loopIteration st inp).state.prevTicks = st.prevTicks) ∧
    ((readCpuTicks inp.stat st.currTicks).1 = true →
      (loopIteration st inp).state.prevTicks = (readCpuTicks inp.stat st.currTicks).2) ∧
    ((loopIteration st inp).sent.isSome = true →
      (loopIteration st inp).sent =
        some (calculateCpuUsage st.prevTicks (readCpuTicks inp.stat st.currTicks).2,
          readRamUsage inp.junk inp.meminfo)) := by
  have hneg := readRamUsage_neg_iff inp.junk inp.meminfo
  unfold loopIteration
  dsimp only
  cases hr : (readCpuTicks inp.stat st.currTicks).1 with
  | false => simp
  | true =>
    by_cases hm : readRamUsage inp.junk inp.meminfo < 0
    · have := hneg.mp hm
      simp [hm, this]
    · have : readRamUsage inp.junk inp.meminfo ≠ -1 := fun h => hm (hneg.mpr h)
      simp [hm, this]

/-- Witness of C9: after an iteration whose CPU read fails the baseline is the one the
iteration started with and nothing was sent; after one in which both reads succeed the
baseline is the snapshot just read and `sendTelemetry` was called with `15` and `75`. -/
theorem C9_iteration_sends_and_baseline_witness :
    (loopIteration startState failedCpuCycle).state.prevTicks = exampleBaseline ∧
    (loopIteration startState goodCycle).state.prevTicks = exampleCurrent ∧
    (loopIteration startState goodCycle).sent.isSome = true :=
  ⟨(C9_iteration_sends_and_baseline startState failedCpuCycle).2.1 (by decide),
   ((C9_iteration_sends_and_baseline startState goodCycle).2.2.1 (by decide)).trans (by decide),
   (C9_iteration_sends_and_baseline startState goodCycle).1.mpr
     ⟨by decide, by
       have h := (readRamUsage_exampleMeminfo zeroJunk).2
       show readRamUsage zeroJunk (some exampleMeminfo) ≠ -1
       rw [h]
       norm_num⟩⟩

/-- C10 (counterexample): an iteration whose CPU read fails 5 ms after its start sleeps
the full 1000 ms, not `max 0 (1000 - 5) = 995` ms. -/
theorem C10_counterexample :
    (readCpuTicks failedCpuCycle.stat startState.currTicks).1 = false ∧
    (loopIteration startState failedCpuCycle).sleptMs = 1000 ∧
    (loopIteration startState failedCpuCycle).sleptMs
      ≠ max 0 (intervalMs - failedCpuCycle.elapsedMs) := by
  refine ⟨by decide, by decide, by decide⟩

/-- C10 (amended): an iteration in which both reads succeed sleeps
`max 0 (interval - elapsed)` milliseconds, whether the delivery succeeds or fails; an
iteration whose CPU read or memory read fails sleeps the full interval, whatever time
has passed since its start. -/
theorem C10_iteration_pacing (st : LoopState) (inp : CycleInput) :
    (((readCpuTicks inp.stat st.currTicks).1 = true ∧
        readRamUsage inp.junk inp.meminfo ≠ -1) →
      (loopIteration st inp).sleptMs = max 0 (intervalMs - inp.elapsedMs) ∧
      (loopIteration st inp).delivered = sendTelemetry inp.net) ∧
    (((readCpuTicks inp.stat st.currTicks).1 = false ∨
        readRamUsage inp.junk inp.meminfo = -1) →
      (loopIteration st inp).sleptMs = intervalMs) := by
  have hneg := readRamUsage_neg_iff inp.junk inp.meminfo
  unfold loopIteration
  dsimp only
  cases hr : (readCpuTicks inp.stat st.currTicks).1 with
  | false => simp
  | true =>
    by_cases hm : readRamUsage inp.junk inp.meminfo < 0
    · have := hneg.mp hm
      simp [hm, this]
    · have : readRamUsage inp.junk inp.meminfo ≠ -1 := fun h => hm (hneg.mpr h)
      simp only [Bool.not_true, Bool.false_eq_true, if_false, hm, this, ne_eq, not_false_eq_true,
        and_self, true_implies, or_self, false_implies, and_true, true_and]
      by_cases hs : 0 < intervalMs - inp.elapsedMs
      · rw [if_pos hs, max_eq_right hs.le]
        exact ⟨rfl, fun h => by rcases h with h | h <;> cases h⟩
      · rw [if_neg hs, max_eq_left (by omega)]
        exact ⟨rfl, fun h => by rcases h with h | h <;> cases h⟩

/-- Witness of C10 (amended): an iteration in which both reads succeed and 5 ms have
passed sleeps 995 ms, the delivery having been rejected. -/
theorem C10_iteration_pacing_witness :
    (loopIteration startState goodCycle).sleptMs = 995 ∧
    (loopIteration startState goodCycle).delivered = false :=
  have h := (C10_iteration_pacing startState goodCycle).1
    ⟨by decide, by
      have h := (readRamUsage_exampleMeminfo zeroJunk).2
      show readRamUsage zeroJunk (some exampleMeminfo) ≠ -1
      rw [h]
      norm_num⟩
  ⟨h.1.trans (by decide), h.2.trans (by decide)⟩

end SysPulse
